import Mathlib

/-!
Verification of the Home-Vision-AI smart-NVR core (track manager, zone
monitor, event recorder) and of the mobile notification context.

The backend tracking service (`backend/app/services/ai_detection_service.py`)
is documented in `SETUP.md` but its source is not part of this tree, so the
tracking / zone / event definitions below are modelled from the specification
text.  The mobile notification state is embedded directly from
`HomeVisionMobile/src/context/NotificationContext.js`.

All timestamps, coordinates and confidences are rationals; Euclidean
distances are compared through their squares, which is equivalent for a
nonnegative threshold.
-/

namespace HomeVision

/-- Modelled from the spec: kinds of recordable events
(`object_detected | zone_violation | loitering_detected`). -/
inductive EventKind where
  | objectDetected
  | zoneViolation
  | loiteringDetected
deriving DecidableEq, Repr

/-- Modelled from the spec: one Detection produced by the external detector.
`coordsFinite` abstracts floating-point finiteness of the raw coordinates. -/
structure Detection where
  objectType : String
  confidence : ℚ
  x1 : ℚ
  y1 : ℚ
  x2 : ℚ
  y2 : ℚ
  coordsFinite : Bool
deriving DecidableEq, Repr

/-- Modelled from the spec: center = midpoint of the bounding box. -/
def Detection.center (d : Detection) : ℚ × ℚ :=
  ((d.x1 + d.x2) / 2, (d.y1 + d.y2) / 2)

/-- Modelled from the spec: a detection is dropped when its coordinates are
non-finite, `x1 ≥ x2`, or its confidence lies outside `[0,1]`. -/
def Detection.isValid (d : Detection) : Bool :=
  d.coordsFinite && decide (d.x1 < d.x2) &&
    decide (0 ≤ d.confidence) && decide (d.confidence ≤ 1)

/-- Modelled from the spec: a Track owned by the Track Manager
(`ai_detection_service.py`, not in the tree). -/
structure Track where
  trackId : ℕ
  objectType : String
  center : ℚ × ℚ
  bbox : ℚ × ℚ × ℚ × ℚ
  path : List (ℚ × ℚ)
  confidence : ℚ
  age : ℕ
  hits : ℕ
  missesSinceLastHit : ℕ
  firstSeen : ℚ
  lastSeen : ℚ
  confirmed : Bool
deriving DecidableEq, Repr

/-- Modelled from the spec: the configuration knobs injected at pipeline
construction (defaults: threshold 100, min hits 3, max age 30, cooldown 30s,
loitering 30s, 100 events per camera). -/
structure Config where
  trackDistanceThreshold : ℚ
  minTrackHits : ℕ
  maxTrackAge : ℕ
  maxTrackPathLength : ℕ
  loiteringThresholdSeconds : ℚ
  alertCooldownSeconds : ℚ
  maxEventsPerCamera : ℕ
deriving Repr

/-- Squared Euclidean distance between two points. -/
def dist2 (p q : ℚ × ℚ) : ℚ :=
  (p.1 - q.1) * (p.1 - q.1) + (p.2 - q.2) * (p.2 - q.2)

/-- List elements paired with their indices, starting at `n`. -/
def withIdx {α : Type} (n : ℕ) : List α → List (ℕ × α)
  | [] => []
  | a :: as => (n, a) :: withIdx (n + 1) as

/-- Modelled from the spec: a track-detection pair is a matching candidate
when the object types agree and the Euclidean distance is at most
`track_distance_threshold` (compared via squares). -/
def candidateFor (cfg : Config) (t : Track) (d : Detection) : Bool :=
  decide (t.objectType = d.objectType) &&
    decide (dist2 t.center d.center ≤ cfg.trackDistanceThreshold * cfg.trackDistanceThreshold)

/-- A matching candidate: squared distance, the track id (for the
deterministic tie-break), and the indices of the track and the detection. -/
structure Cand where
  d2 : ℚ
  tid : ℕ
  ti : ℕ
  di : ℕ
deriving DecidableEq, Repr

/-- Strict lexicographic order on candidates: distance first, then track id
(lowest wins a tie), then track index, then detection index. -/
def candLt (a b : Cand) : Bool :=
  decide (a.d2 < b.d2) ||
    (decide (a.d2 = b.d2) &&
      (decide (a.tid < b.tid) ||
        (decide (a.tid = b.tid) &&
          (decide (a.ti < b.ti) ||
            (decide (a.ti = b.ti) && decide (a.di < b.di))))))

/-- The least candidate of `c :: cs` under `candLt`. -/
def minCand (c : Cand) (cs : List Cand) : Cand :=
  cs.foldl (fun m x => if candLt x m then x else m) c

/-- Modelled from the spec: all matching candidates of one frame
(pairs within threshold and of equal object type). -/
def candPairs (cfg : Config) (tracks : List Track) (dets : List Detection) :
    List Cand :=
  (withIdx 0 tracks).flatMap (fun pt =>
    (withIdx 0 dets).filterMap (fun pd =>
      if candidateFor cfg pt.2 pd.2 then
        some ⟨dist2 pt.2.center pd.2.center, pt.2.trackId, pt.1, pd.1⟩
      else none))

/-- Modelled from the spec: greedy assignment loop — repeatedly take the
globally smallest remaining candidate and discard all candidates sharing its
track or its detection. -/
def greedyLoop : ℕ → List Cand → List (ℕ × ℕ)
  | 0, _ => []
  | _, [] => []
  | Nat.succ n, c :: cs =>
    let m := minCand c cs
    (m.ti, m.di) ::
      greedyLoop n ((c :: cs).filter (fun x => decide (x.ti ≠ m.ti) && decide (x.di ≠ m.di)))

/-- Modelled from the spec: the greedy nearest-neighbour matching of one
frame, returning (track index, detection index) pairs. -/
def greedyMatch (cfg : Config) (tracks : List Track) (dets : List Detection) :
    List (ℕ × ℕ) :=
  greedyLoop (candPairs cfg tracks dets).length (candPairs cfg tracks dets)

/-- The detection index matched to track index `ti`, if any. -/
def lookupIdx (m : List (ℕ × ℕ)) (ti : ℕ) : Option ℕ :=
  (m.find? (fun p => decide (p.1 = ti))).map Prod.snd

/-- Modelled from the spec: the path keeps only the most recent
`max_track_path_length` positions; oldest dropped first. -/
def trimPath (maxLen : ℕ) (p : List (ℚ × ℚ)) : List (ℚ × ℚ) :=
  p.drop (p.length - maxLen)

/-- Modelled from the spec, step 3: update a matched track; the Boolean is
true when this match flips the track from unconfirmed to confirmed, which
emits the `object_detected` transition. -/
def updateMatchedTrack (cfg : Config) (now : ℚ) (t : Track) (d : Detection) :
    Track × Bool :=
  ({ t with
      center := d.center
      bbox := (d.x1, d.y1, d.x2, d.y2)
      confidence := d.confidence
      path := trimPath cfg.maxTrackPathLength (t.path ++ [d.center])
      hits := t.hits + 1
      missesSinceLastHit := 0
      age := t.age + 1
      lastSeen := now
      confirmed := t.confirmed || decide (cfg.minTrackHits ≤ t.hits + 1) },
    !t.confirmed && decide (cfg.minTrackHits ≤ t.hits + 1))

/-- Modelled from the spec, step 4: an unmatched track ages; it is removed
(`none`) exactly when `misses_since_last_hit` exceeds `max_track_age`. -/
def ageUnmatchedTrack (cfg : Config) (t : Track) : Option Track :=
  if cfg.maxTrackAge < t.missesSinceLastHit + 1 then none
  else some { t with age := t.age + 1, missesSinceLastHit := t.missesSinceLastHit + 1 }

/-- Modelled from the spec, step 5: a new track created from an unmatched
detection (`hits = 1`, unconfirmed, `age = 0`). -/
def newTrack (id : ℕ) (now : ℚ) (d : Detection) : Track :=
  { trackId := id
    objectType := d.objectType
    center := d.center
    bbox := (d.x1, d.y1, d.x2, d.y2)
    path := [d.center]
    confidence := d.confidence
    age := 0
    hits := 1
    missesSinceLastHit := 0
    firstSeen := now
    lastSeen := now
    confirmed := false }

/-- Modelled from the spec: lifecycle transitions reported by the Track
Manager; expiry is bookkeeping only and never becomes an Event. -/
inductive Transition where
  | confirmedTrack (t : Track)
  | expiredTrack (t : Track)
deriving DecidableEq, Repr

/-- One existing track's fate in a frame: its updated version (or `none` if
removed) and the lifecycle transition it emits, if any. -/
def stepTrack (cfg : Config) (now : ℚ) (dets : List Detection)
    (pairing : List (ℕ × ℕ)) (p : ℕ × Track) : Option Track × Option Transition :=
  match lookupIdx pairing p.1 with
  | some di =>
    match dets[di]? with
    | some d =>
      let r := updateMatchedTrack cfg now p.2 d
      (some r.1, if r.2 then some (Transition.confirmedTrack r.1) else none)
    | none => (none, none)
  | none =>
    match ageUnmatchedTrack cfg p.2 with
    | some t' => (some t', none)
    | none => (none, some (Transition.expiredTrack p.2))

/-- Modelled from the spec: the Track Manager state for one camera. -/
structure TMState where
  tracks : List Track
  nextId : ℕ
deriving DecidableEq, Repr

/-- Result of one Track Manager frame update. -/
structure FrameResult where
  state : TMState
  transitions : List Transition
deriving DecidableEq, Repr

/-- Modelled from the spec: malformed detections are dropped before the
matching step. -/
def validDets (dets0 : List Detection) : List Detection :=
  dets0.filter Detection.isValid

/-- The greedy matching computed for one frame. -/
def framePairs (cfg : Config) (st : TMState) (dets0 : List Detection) :
    List (ℕ × ℕ) :=
  greedyMatch cfg st.tracks (validDets dets0)

/-- The valid detections of a frame left unmatched by the greedy step. -/
def unmatchedDetections (cfg : Config) (st : TMState) (dets0 : List Detection) :
    List Detection :=
  ((withIdx 0 (validDets dets0)).filter
    (fun p => decide (p.1 ∉ (framePairs cfg st dets0).map Prod.snd))).map Prod.snd

/-- Modelled from the spec: one full Track Manager frame update — filter
malformed detections, match greedily, update / age / create tracks. -/
def processFrame (cfg : Config) (now : ℚ) (st : TMState)
    (dets0 : List Detection) : FrameResult :=
  let stepped := (withIdx 0 st.tracks).map
    (stepTrack cfg now (validDets dets0) (framePairs cfg st dets0))
  { state :=
      { tracks := stepped.filterMap Prod.fst ++
          (withIdx 0 (unmatchedDetections cfg st dets0)).map
            (fun p => newTrack (st.nextId + p.1) now p.2)
        nextId := st.nextId + (unmatchedDetections cfg st dets0).length }
    transitions := stepped.filterMap Prod.snd }

/-- Modelled from the spec: zone geometry — a rectangle `(x1,y1,x2,y2)` or an
ordered vertex list. -/
inductive ZoneGeom where
  | rect (x1 y1 x2 y2 : ℚ)
  | poly (vs : List (ℚ × ℚ))
deriving DecidableEq, Repr

/-- Modelled from the spec: a configured detection zone. -/
structure Zone where
  name : String
  geom : ZoneGeom
  restricted : Bool
deriving DecidableEq, Repr

/-- Modelled from the spec: geometry is degenerate when a rectangle has
`x1 ≥ x2` or `y1 ≥ y2`, or a polygon has fewer than 3 vertices. -/
def zoneGeomValid : ZoneGeom → Bool
  | ZoneGeom.rect x1 y1 x2 y2 => decide (x1 < x2) && decide (y1 < y2)
  | ZoneGeom.poly vs => decide (3 ≤ vs.length)

/-- The edges of a polygon, each vertex joined to the next, wrapping around. -/
def polyEdges (vs : List (ℚ × ℚ)) : List ((ℚ × ℚ) × (ℚ × ℚ)) :=
  match vs with
  | [] => []
  | v :: _ => vs.zip (vs.tail ++ [v])

/-- One step of the standard ray-casting test: does a horizontal ray from `p`
cross the edge `a`-`b`? -/
def rayCrosses (p a b : ℚ × ℚ) : Bool :=
  (decide (p.2 < a.2) != decide (p.2 < b.2)) &&
    decide (p.1 < (b.1 - a.1) * (p.2 - a.2) / (b.2 - a.2) + a.1)

/-- Modelled from the spec: point-in-polygon by ray casting (crossing
parity). -/
def inPolygon (p : ℚ × ℚ) (vs : List (ℚ × ℚ)) : Bool :=
  (polyEdges vs).foldl (fun acc e => if rayCrosses p e.1 e.2 then !acc else acc) false

/-- Modelled from the spec: containment test for a zone — simple bound
comparison for rectangles, ray casting for polygons. -/
def zoneContains (z : Zone) (p : ℚ × ℚ) : Bool :=
  match z.geom with
  | ZoneGeom.rect x1 y1 x2 y2 =>
    decide (x1 ≤ p.1) && decide (p.1 ≤ x2) && decide (y1 ≤ p.2) && decide (p.2 ≤ y2)
  | ZoneGeom.poly vs => inPolygon p vs

/-- Modelled from the spec: add a zone; rejected when the geometry is
degenerate or the name already exists for the camera. -/
def addZone (store : List Zone) (z : Zone) : Except String (List Zone) :=
  if !zoneGeomValid z.geom then Except.error "invalid zone geometry"
  else if store.any (fun z0 => decide (z0.name = z.name)) then
    Except.error "zone name already exists"
  else Except.ok (store ++ [z])

/-- Modelled from the spec: remove a zone by name; not-found error when the
name is absent. -/
def removeZone (store : List Zone) (name : String) : Except String (List Zone) :=
  if store.any (fun z0 => decide (z0.name = name)) then
    Except.ok (store.filter (fun z0 => decide (z0.name ≠ name)))
  else Except.error "zone not found"

/-- A zone management request (the write API of the Zone Store). -/
inductive ZoneOp where
  | add (z : Zone)
  | remove (name : String)
deriving DecidableEq, Repr

/-- Apply one zone request; a rejected request leaves the store unchanged. -/
def applyZoneOp (store : List Zone) : ZoneOp → List Zone
  | ZoneOp.add z => (addZone store z).toOption.getD store
  | ZoneOp.remove name => (removeZone store name).toOption.getD store

/-- The Zone Store reached from the empty store by a request sequence. -/
def runZoneOps (ops : List ZoneOp) : List Zone :=
  ops.foldl applyZoneOp []

/-- Modelled from the spec: a raw signal raised by the Track Manager or the
Zone Monitor, before cooldown filtering by the Event Recorder. -/
structure Signal where
  kind : EventKind
  objectType : String
  trackId : ℕ
  confidence : ℚ
  zoneName : Option String
  location : ℚ × ℚ
  duration : Option ℚ
  timestamp : ℚ
deriving DecidableEq, Repr

/-- Modelled from the spec: a persisted Event. -/
structure Event where
  kind : EventKind
  objectType : String
  trackId : ℕ
  confidence : ℚ
  zoneName : Option String
  location : ℚ × ℚ
  timestamp : ℚ
  recordedAt : ℚ
deriving DecidableEq, Repr

/-- Modelled from the spec: the cooldown dedup key — `track_id` for
object_detected / loitering, `(track_id, zone_name)` for zone_violation
(per camera; one camera is modelled). -/
def dedupKey (kind : EventKind) (tid : ℕ) (zn : Option String) :
    EventKind × ℕ × Option String :=
  (kind, tid, if kind = EventKind.zoneViolation then zn else none)

/-- The cooldown key of a signal. -/
def Signal.key (s : Signal) : EventKind × ℕ × Option String :=
  dedupKey s.kind s.trackId s.zoneName

/-- The cooldown key of a recorded event. -/
def Event.key (e : Event) : EventKind × ℕ × Option String :=
  dedupKey e.kind e.trackId e.zoneName

/-- The event persisted for an accepted signal (`recorded_at = now`). -/
def mkEvent (s : Signal) (now : ℚ) : Event :=
  { kind := s.kind
    objectType := s.objectType
    trackId := s.trackId
    confidence := s.confidence
    zoneName := s.zoneName
    location := s.location
    timestamp := s.timestamp
    recordedAt := now }

/-- Look up a cooldown key in the `key → last_recorded_at` mapping. -/
def lookupKey (cds : List ((EventKind × ℕ × Option String) × ℚ))
    (k : EventKind × ℕ × Option String) : Option ℚ :=
  (cds.find? (fun p => decide (p.1 = k))).map Prod.snd

/-- Update the mapping so the key now points at `v` (newest entry wins). -/
def setKey (cds : List ((EventKind × ℕ × Option String) × ℚ))
    (k : EventKind × ℕ × Option String) (v : ℚ) :
    List ((EventKind × ℕ × Option String) × ℚ) :=
  (k, v) :: cds

/-- Modelled from the spec: a signal passes the cooldown gate iff no entry
exists for its key or the entry is older than `alert_cooldown_seconds`
relative to now. -/
def cooldownOk (cfg : Config) (now : ℚ)
    (cds : List ((EventKind × ℕ × Option String) × ℚ))
    (k : EventKind × ℕ × Option String) : Bool :=
  match lookupKey cds k with
  | none => true
  | some last => decide (cfg.alertCooldownSeconds < now - last)

/-- Modelled from the spec: the bounded FIFO event history — append, then
evict from the front while above `max_events_per_camera`. -/
def appendEvent (maxE : ℕ) (hist : List Event) (e : Event) : List Event :=
  (hist ++ [e]).drop ((hist ++ [e]).length - maxE)

/-- Modelled from the spec: the Event Recorder state for one camera. -/
structure RecorderState where
  cooldowns : List ((EventKind × ℕ × Option String) × ℚ)
  history : List Event
deriving DecidableEq, Repr

/-- The recorder state before any signal was processed. -/
def initialRecorder : RecorderState :=
  { cooldowns := [], history := [] }

/-- Modelled from the spec: process one signal — record it as an Event and
stamp the cooldown map when the gate passes, otherwise drop it. -/
def recordSignal (cfg : Config) (now : ℚ) (st : RecorderState) (s : Signal) :
    RecorderState × Option Event :=
  if cooldownOk cfg now st.cooldowns s.key then
    ({ cooldowns := setKey st.cooldowns s.key now
       history := appendEvent cfg.maxEventsPerCamera st.history (mkEvent s now) },
      some (mkEvent s now))
  else (st, none)

/-- Process one frame's signals in order. -/
def recordSignals (cfg : Config) (now : ℚ) (st : RecorderState)
    (sigs : List Signal) : RecorderState × List Event :=
  match sigs with
  | [] => (st, [])
  | s :: rest =>
    let r := recordSignal cfg now st s
    let rr := recordSignals cfg now r.1 rest
    (rr.1, r.2.toList ++ rr.2)

/-- Run the recorder over a sequence of individually timed signals. -/
def runRecorderT (cfg : Config) (st : RecorderState) :
    List (ℚ × Signal) → RecorderState × List Event
  | [] => (st, [])
  | x :: rest =>
    let r := recordSignal cfg x.1 st x.2
    let rr := runRecorderT cfg r.1 rest
    (rr.1, r.2.toList ++ rr.2)

/-- The `zone_violation` signal payload:
`{track_id, object_type, zone_name, location = center}`. -/
def mkViolationSignal (now : ℚ) (t : Track) (z : Zone) : Signal :=
  { kind := EventKind.zoneViolation
    objectType := t.objectType
    trackId := t.trackId
    confidence := t.confidence
    zoneName := some z.name
    location := t.center
    duration := none
    timestamp := now }

/-- The `loitering_detected` signal payload:
`{track_id, object_type, location = center, duration}`. -/
def mkLoiterSignal (now : ℚ) (t : Track) : Signal :=
  { kind := EventKind.loiteringDetected
    objectType := t.objectType
    trackId := t.trackId
    confidence := t.confidence
    zoneName := none
    location := t.center
    duration := some (now - t.firstSeen)
    timestamp := now }

/-- The `object_detected` signal payload of a newly confirmed track. -/
def mkObjectSignal (now : ℚ) (t : Track) : Signal :=
  { kind := EventKind.objectDetected
    objectType := t.objectType
    trackId := t.trackId
    confidence := t.confidence
    zoneName := none
    location := t.center
    duration := none
    timestamp := now }

/-- Modelled from the spec: the `zone_violation` signals of one confirmed
track — one per restricted zone containing the track's center, every frame. -/
def violationSignals (now : ℚ) (zones : List Zone) (t : Track) : List Signal :=
  if t.confirmed then
    (zones.filter (fun z => z.restricted && zoneContains z t.center)).map
      (mkViolationSignal now t)
  else []

/-- Modelled from the spec: the loitering signal of a track — emitted every
frame once the track is confirmed and `now - first_seen` reaches
`loitering_threshold_seconds`, independently of zones. -/
def loiterSignal (cfg : Config) (now : ℚ) (t : Track) : Option Signal :=
  if t.confirmed && decide (cfg.loiteringThresholdSeconds ≤ now - t.firstSeen) then
    some (mkLoiterSignal now t)
  else none

/-- Modelled from the spec: the Zone Monitor output for one frame. -/
def zoneMonitor (cfg : Config) (now : ℚ) (tracks : List Track)
    (zones : List Zone) : List Signal :=
  tracks.flatMap (violationSignals now zones) ++ tracks.filterMap (loiterSignal cfg now)

/-- The signals derived from Track Manager transitions: a confirmed track
becomes an `object_detected` signal; expiry produces nothing. -/
def transitionSignals (now : ℚ) (trs : List Transition) : List Signal :=
  trs.filterMap (fun tr =>
    match tr with
    | Transition.confirmedTrack t => some (mkObjectSignal now t)
    | Transition.expiredTrack _ => none)

/-- Modelled from the spec: the per-camera pipeline context. -/
structure CameraState where
  tm : TMState
  zones : List Zone
  recorder : RecorderState
deriving DecidableEq, Repr

/-- Modelled from the spec: one full pipeline frame — Track Manager, then
Zone Monitor, then Event Recorder. -/
def pipelineFrame (cfg : Config) (now : ℚ) (cs : CameraState)
    (dets : List Detection) : CameraState × List Event :=
  let fr := processFrame cfg now cs.tm dets
  let sigs := transitionSignals now fr.transitions ++
    zoneMonitor cfg now fr.state.tracks cs.zones
  let r := recordSignals cfg now cs.recorder sigs
  ({ tm := fr.state, zones := cs.zones, recorder := r.1 }, r.2)

/-- Run the pipeline over a sequence of timed frames. -/
def runPipeline (cfg : Config) (cs : CameraState) :
    List (ℚ × List Detection) → CameraState
  | [] => cs
  | f :: rest => runPipeline cfg (pipelineFrame cfg f.1 cs f.2).1 rest

/-- A notification held by the mobile `NotificationProvider`
(`HomeVisionMobile/src/context/NotificationContext.js`); only the fields the
state logic reads are modelled. -/
structure MobileNotification where
  id : ℕ
  isRead : Bool
deriving DecidableEq, Repr

/-- The local state of the mobile `NotificationProvider`: the notification
list and the `unreadCount` counter (a JavaScript number, modelled as ℤ). -/
structure NotifState where
  notifications : List MobileNotification
  unreadCount : ℤ
deriving DecidableEq, Repr

/-- The provider's initial state: empty list, `unreadCount = 0`. -/
def initNotifState : NotifState :=
  { notifications := [], unreadCount := 0 }

/-- The markAsRead operation of NotificationContext.js: map the matching notification
to read and clamp the decrement with `Math.max(0, prev - 1)`. -/
def markAsRead (st : NotifState) (nid : ℕ) : NotifState :=
  { notifications := st.notifications.map (fun n =>
      if n.id = nid then { n with isRead := true } else n)
    unreadCount := max 0 (st.unreadCount - 1) }

/-- The markAllAsRead operation of NotificationContext.js: set every notification to
read and the counter to 0. -/
def markAllAsRead (st : NotifState) : NotifState :=
  { notifications := st.notifications.map (fun n => { n with isRead := true })
    unreadCount := 0 }

/-- The deleteNotification operation of NotificationContext.js: drop the notification
and, when it existed and was unread, clamp-decrement the counter. -/
def deleteNotification (st : NotifState) (nid : ℕ) : NotifState :=
  { notifications := st.notifications.filter (fun n => decide (n.id ≠ nid))
    unreadCount :=
      match st.notifications.find? (fun n => decide (n.id = nid)) with
      | some n => if n.isRead then st.unreadCount else max 0 (st.unreadCount - 1)
      | none => st.unreadCount }

/-- The addNotification operation of NotificationContext.js: prepend and increment the
counter when the new notification is unread. -/
def addNotification (st : NotifState) (n : MobileNotification) : NotifState :=
  { notifications := n :: st.notifications
    unreadCount := if n.isRead then st.unreadCount else st.unreadCount + 1 }

/-- The clearAllNotifications operation of NotificationContext.js: empty list,
counter 0. -/
def clearAllNotifications (st : NotifState) : NotifState :=
  { notifications := [], unreadCount := 0 }

/-- The operations the provider exposes. -/
inductive NotifOp where
  | markRead (nid : ℕ)
  | markAll
  | del (nid : ℕ)
  | add (n : MobileNotification)
  | clearAll
deriving DecidableEq, Repr

/-- Apply one provider operation. -/
def applyNotifOp (st : NotifState) : NotifOp → NotifState
  | NotifOp.markRead nid => markAsRead st nid
  | NotifOp.markAll => markAllAsRead st
  | NotifOp.del nid => deleteNotification st nid
  | NotifOp.add n => addNotification st n
  | NotifOp.clearAll => clearAllNotifications st

/-- The provider state reached from the initial state by an operation
sequence. -/
def runNotifOps (ops : List NotifOp) : NotifState :=
  ops.foldl applyNotifOp initNotifState

/-- The confirmation invariant: a track is confirmed exactly when it has
accumulated at least `min_track_hits` hits. -/
def trackOK (cfg : Config) (t : Track) : Prop :=
  t.confirmed = true ↔ cfg.minTrackHits ≤ t.hits

/-- The documented default configuration of the tracking service. -/
def cfgSample : Config :=
  { trackDistanceThreshold := 100
    minTrackHits := 3
    maxTrackAge := 30
    maxTrackPathLength := 10
    loiteringThresholdSeconds := 30
    alertCooldownSeconds := 30
    maxEventsPerCamera := 100 }

/-- The scenario detection of the spec: a person at bbox (100,100,150,200). -/
def detSample : Detection :=
  { objectType := "person"
    confidence := 9 / 10
    x1 := 100
    y1 := 100
    x2 := 150
    y2 := 200
    coordsFinite := true }

/-- A fresh track created from the sample detection at time 0. -/
def trackSample : Track :=
  newTrack 0 0 detSample

/-- A sample confirmed track. -/
def confirmedSample : Track :=
  { trackSample with hits := 3, confirmed := true, trackId := 1 }

/-- The scenario zone of the spec: restricted rectangle (100,100,400,300). -/
def zoneSample : Zone :=
  { name := "Front Door"
    geom := ZoneGeom.rect 100 100 400 300
    restricted := true }

/-- A sample `object_detected` signal. -/
def sigSample : Signal :=
  mkObjectSignal 0 confirmedSample

/-- The sample track after one missed frame. -/
def agedSample : Track :=
  { trackSample with age := 1, missesSinceLastHit := 1 }

/-- Separation of two recorded events by more than the cooldown window. -/
def eventSep (cd : ℚ) (a b : Event) : Prop :=
  cd < b.recordedAt - a.recordedAt

/-- A malformed detection: confidence above 1. -/
def detBad : Detection :=
  { objectType := "person"
    confidence := 2
    x1 := 0
    y1 := 0
    x2 := 10
    y2 := 10
    coordsFinite := true }

/-- A detection centred at (125,150), distance 0 from `trackSample`. -/
def detNear : Detection :=
  { objectType := "person"
    confidence := 9 / 10
    x1 := 120
    y1 := 145
    x2 := 130
    y2 := 155
    coordsFinite := true }

/-- A detection centred at (1125,1150), far outside the match radius. -/
def detFar : Detection :=
  { objectType := "person"
    confidence := 9 / 10
    x1 := 1100
    y1 := 1100
    x2 := 1150
    y2 := 1200
    coordsFinite := true }

/-- A track centred at (120,150), id 5: distance 5 from `detNear`. -/
def trackA : Track :=
  { trackSample with trackId := 5, center := (120, 150) }

/-- A track centred at (130,150), id 7: also distance 5 from `detNear`. -/
def trackB : Track :=
  { trackSample with trackId := 7, center := (130, 150) }

lemma appendEvent_length_le (m : ℕ) (hist : List Event) (e : Event)
    (h : hist.length ≤ m) : (appendEvent m hist e).length ≤ m := by
  simp only [appendEvent, List.length_drop, List.length_append, List.length_singleton]
  omega

lemma appendEvent_suffix (m : ℕ) (hist : List Event) (e : Event) :
    (appendEvent m hist e).IsSuffix (hist ++ [e]) :=
  List.drop_suffix _ _

lemma appendEvent_under (m : ℕ) (hist : List Event) (e : Event)
    (h : hist.length < m) : appendEvent m hist e = hist ++ [e] := by
  unfold appendEvent
  have h0 : (hist ++ [e]).length - m = 0 := by
    simp only [List.length_append, List.length_singleton]
    omega
  rw [h0, List.drop_zero]

lemma appendEvent_full (m : ℕ) (hist : List Event) (e : Event)
    (h : hist.length = m) : appendEvent m hist e = (hist ++ [e]).drop 1 := by
  unfold appendEvent
  congr 1
  simp only [List.length_append, List.length_singleton]
  omega

lemma recordSignal_history_le (cfg : Config) (now : ℚ) (st : RecorderState)
    (s : Signal) (h : st.history.length ≤ cfg.maxEventsPerCamera) :
    ((recordSignal cfg now st s).1).history.length ≤ cfg.maxEventsPerCamera := by
  unfold recordSignal
  split
  · exact appendEvent_length_le _ _ _ h
  · exact h

lemma recordSignals_history_le (cfg : Config) (now : ℚ) :
    ∀ (sigs : List Signal) (st : RecorderState),
      st.history.length ≤ cfg.maxEventsPerCamera →
      ((recordSignals cfg now st sigs).1).history.length ≤ cfg.maxEventsPerCamera := by
  intro sigs
  induction sigs with
  | nil => intro st h; exact h
  | cons s rest ih =>
    intro st h
    exact ih _ (recordSignal_history_le cfg now st s h)

lemma runRecorderT_history_le (cfg : Config) :
    ∀ (l : List (ℚ × Signal)) (st : RecorderState),
      st.history.length ≤ cfg.maxEventsPerCamera →
      ((runRecorderT cfg st l).1).history.length ≤ cfg.maxEventsPerCamera := by
  intro l
  induction l with
  | nil => intro st h; exact h
  | cons x rest ih =>
    intro st h
    exact ih _ (recordSignal_history_le cfg x.1 st x.2 h)

lemma runPipeline_history_le (cfg : Config) :
    ∀ (frames : List (ℚ × List Detection)) (cs : CameraState),
      cs.recorder.history.length ≤ cfg.maxEventsPerCamera →
      ((runPipeline cfg cs frames).recorder).history.length ≤ cfg.maxEventsPerCamera := by
  intro frames
  induction frames with
  | nil => intro cs h; exact h
  | cons f rest ih =>
    intro cs h
    exact ih _ (recordSignals_history_le cfg f.1 _ cs.recorder h)

/-- C5: the camera's event history never exceeds `max_events_per_camera`
across any sequence of pipeline frames; an insertion keeps the history a
suffix of `old ++ [new]` (FIFO order preserved), appends without eviction
below the bound, and evicts exactly the oldest entry when full. -/
theorem event_history_bounded_fifo :
    (∀ (m : ℕ) (hist : List Event) (e : Event), hist.length ≤ m →
      (appendEvent m hist e).length ≤ m)
    ∧ (∀ (m : ℕ) (hist : List Event) (e : Event),
        (appendEvent m hist e).IsSuffix (hist ++ [e]))
    ∧ (∀ (m : ℕ) (hist : List Event) (e : Event), hist.length < m →
        appendEvent m hist e = hist ++ [e])
    ∧ (∀ (m : ℕ) (hist : List Event) (e : Event), hist.length = m →
        appendEvent m hist e = (hist ++ [e]).drop 1)
    ∧ (∀ (cfg : Config) (cs : CameraState) (frames : List (ℚ × List Detection)),
        cs.recorder.history.length ≤ cfg.maxEventsPerCamera →
        ((runPipeline cfg cs frames).recorder).history.length ≤ cfg.maxEventsPerCamera) :=
  ⟨appendEvent_length_le, appendEvent_suffix, appendEvent_under, appendEvent_full,
    fun cfg cs frames h => runPipeline_history_le cfg frames cs h⟩

/-- Witness for C5 at a concrete input: a one-element history at the bound 1
stays within the bound after an insertion. -/
theorem event_history_bounded_fifo_witness :
    ([mkEvent sigSample 0] : List Event).length ≤ 1 ∧
      (appendEvent 1 [mkEvent sigSample 0] (mkEvent sigSample 1)).length ≤ 1 :=
  ⟨by simp, event_history_bounded_fifo.1 1 [mkEvent sigSample 0] (mkEvent sigSample 1)
    (by simp)⟩

lemma applyZoneOp_all_valid (store : List Zone) (op : ZoneOp)
    (h : ∀ z ∈ store, zoneGeomValid z.geom = true) :
    ∀ z ∈ applyZoneOp store op, zoneGeomValid z.geom = true := by
  cases op with
  | add z0 =>
    simp only [applyZoneOp, addZone]
    split
    · simpa [Except.toOption] using h
    · split
      · simpa [Except.toOption] using h
      · simp only [Except.toOption, Option.getD_some]
        intro z hz
        rcases List.mem_append.1 hz with hz1 | hz2
        · exact h z hz1
        · have hz0 : z = z0 := by simpa using hz2
          subst hz0
          rename_i hv _
          simpa using hv
  | remove name =>
    simp only [applyZoneOp, removeZone]
    split
    · simp only [Except.toOption, Option.getD_some]
      intro z hz
      exact h z (List.mem_of_mem_filter hz)
    · simpa [Except.toOption] using h

lemma foldl_zoneOps_valid :
    ∀ (ops : List ZoneOp) (store : List Zone),
      (∀ z ∈ store, zoneGeomValid z.geom = true) →
      ∀ z ∈ ops.foldl applyZoneOp store, zoneGeomValid z.geom = true := by
  intro ops
  induction ops with
  | nil => intro store h; simpa using h
  | cons op rest ih =>
    intro store h
    exact ih _ (applyZoneOp_all_valid store op h)

/-- C7: adding a zone is rejected (store unchanged) exactly when the
geometry is degenerate or the name is already taken; removing an absent name
is a not-found error leaving the store unchanged; hence every rectangle zone
ever stored satisfies `x1 < x2` and `y1 < y2`. -/
theorem zone_store_validation :
    (∀ (store : List Zone) (z : Zone),
      (∃ msg, addZone store z = Except.error msg) ↔
        (zoneGeomValid z.geom = false ∨ ∃ z0 ∈ store, z0.name = z.name))
    ∧ (∀ (store : List Zone) (z : Zone) (msg : String),
        addZone store z = Except.error msg → applyZoneOp store (ZoneOp.add z) = store)
    ∧ (∀ (store : List Zone) (name : String),
        (∀ z0 ∈ store, z0.name ≠ name) →
        removeZone store name = Except.error "zone not found")
    ∧ (∀ (store : List Zone) (name msg : String),
        removeZone store name = Except.error msg →
        applyZoneOp store (ZoneOp.remove name) = store)
    ∧ (∀ (ops : List ZoneOp) (x1 y1 x2 y2 : ℚ) (z : Zone), z ∈ runZoneOps ops →
        z.geom = ZoneGeom.rect x1 y1 x2 y2 → x1 < x2 ∧ y1 < y2) := by
  refine ⟨?_, ?_, ?_, ?_, ?_⟩
  · intro store z
    unfold addZone
    split
    · rename_i hv
      simp only [Bool.not_eq_true'] at hv
      constructor
      · intro _; exact Or.inl hv
      · intro _; exact ⟨"invalid zone geometry", rfl⟩
    · rename_i hv
      simp only [Bool.not_eq_true'] at hv
      replace hv : zoneGeomValid z.geom = true := by
        cases hzv : zoneGeomValid z.geom
        · exact absurd hzv hv
        · rfl
      split
      · rename_i hd
        constructor
        · intro _
          refine Or.inr ?_
          rcases List.any_eq_true.1 hd with ⟨z0, hz0, he⟩
          exact ⟨z0, hz0, of_decide_eq_true he⟩
        · intro _; exact ⟨"zone name already exists", rfl⟩
      · rename_i hd
        constructor
        · rintro ⟨msg, hmsg⟩; cases hmsg
        · rintro (h1 | ⟨z0, hz0, he⟩)
          · simp [hv] at h1
          · exact absurd (List.any_eq_true.2 ⟨z0, hz0, decide_eq_true he⟩) hd
  · intro store z msg hmsg
    simp [applyZoneOp, hmsg, Except.toOption]
  · intro store name h
    have ha : store.any (fun z0 => decide (z0.name = name)) = false := by
      rw [List.any_eq_false]
      intro z0 hz0
      simpa using h z0 hz0
    simp [removeZone, ha]
  · intro store name msg hmsg
    simp [applyZoneOp, hmsg, Except.toOption]
  · intro ops x1 y1 x2 y2 z hz hg
    have hv := foldl_zoneOps_valid ops [] (by simp) z hz
    rw [hg] at hv
    simp only [zoneGeomValid, Bool.and_eq_true, decide_eq_true_eq] at hv
    exact hv

/-- Witness for C7 at a concrete input: removing from the empty store fails
with the not-found error. -/
theorem zone_store_validation_witness :
    removeZone ([] : List Zone) "Front Door" = Except.error "zone not found" :=
  zone_store_validation.2.2.1 [] "Front Door" (by simp)

lemma withIdx_mem_snd {α : Type} :
    ∀ (l : List α) (n : ℕ) (p : ℕ × α), p ∈ withIdx n l → p.2 ∈ l := by
  intro l
  induction l with
  | nil => intro n p h; simp [withIdx] at h
  | cons a as ih =>
    intro n p h
    rcases (by simpa [withIdx] using h : p = (n, a) ∨ p ∈ withIdx (n + 1) as) with h1 | h2
    · subst h1; simp
    · exact List.mem_cons_of_mem a (ih (n + 1) p h2)

lemma withIdx_get {α : Type} :
    ∀ (l : List α) (n : ℕ) (p : ℕ × α), p ∈ withIdx n l →
      n ≤ p.1 ∧ l[p.1 - n]? = some p.2 := by
  intro l
  induction l with
  | nil => intro n p h; simp [withIdx] at h
  | cons a as ih =>
    intro n p h
    rcases (by simpa [withIdx] using h : p = (n, a) ∨ p ∈ withIdx (n + 1) as) with h1 | h2
    · subst h1; simp
    · obtain ⟨h1, h2'⟩ := ih (n + 1) p h2
      refine ⟨by omega, ?_⟩
      have hx : p.1 - n = (p.1 - (n + 1)) + 1 := by omega
      rw [hx, List.getElem?_cons_succ]
      exact h2'

lemma mem_processFrame_tracks (cfg : Config) (now : ℚ) (st : TMState)
    (dets0 : List Detection) (t : Track) :
    t ∈ (processFrame cfg now st dets0).state.tracks ↔
      (∃ p ∈ withIdx 0 st.tracks,
        (stepTrack cfg now (validDets dets0) (framePairs cfg st dets0) p).1 = some t) ∨
      (∃ q ∈ withIdx 0 (unmatchedDetections cfg st dets0),
        newTrack (st.nextId + q.1) now q.2 = t) := by
  simp [processFrame, List.mem_append, List.mem_filterMap, List.mem_map,
    List.filterMap_map, Function.comp]

lemma mem_processFrame_transitions (cfg : Config) (now : ℚ) (st : TMState)
    (dets0 : List Detection) (tr : Transition) :
    tr ∈ (processFrame cfg now st dets0).transitions ↔
      ∃ p ∈ withIdx 0 st.tracks,
        (stepTrack cfg now (validDets dets0) (framePairs cfg st dets0) p).2 = some tr := by
  simp [processFrame, List.mem_filterMap, List.filterMap_map, Function.comp]

lemma unmatchedDetections_subset (cfg : Config) (st : TMState)
    (dets0 : List Detection) :
    ∀ d ∈ unmatchedDetections cfg st dets0, d ∈ dets0 ∧ d.isValid = true := by
  intro d hd
  simp only [unmatchedDetections, List.mem_map] at hd
  obtain ⟨p, hp, hpd⟩ := hd
  have hp2 := withIdx_mem_snd _ _ _ (List.mem_of_mem_filter hp)
  rw [hpd] at hp2
  simpa [validDets, List.mem_filter] using hp2

lemma stepTrack_some_cases (cfg : Config) (now : ℚ) (dets : List Detection)
    (pairing : List (ℕ × ℕ)) (p : ℕ × Track) (t : Track)
    (h : (stepTrack cfg now dets pairing p).1 = some t) :
    (∃ di d, lookupIdx pairing p.1 = some di ∧ dets[di]? = some d ∧
      t = (updateMatchedTrack cfg now p.2 d).1) ∨
    (lookupIdx pairing p.1 = none ∧ ageUnmatchedTrack cfg p.2 = some t) := by
  cases h1 : lookupIdx pairing p.1 with
  | some di =>
    cases h2 : dets[di]? with
    | some d =>
      simp only [stepTrack, h1, h2, Option.some_inj] at h
      exact Or.inl ⟨di, d, rfl, h2, h.symm⟩
    | none => simp [stepTrack, h1, h2] at h
  | none =>
    cases h2 : ageUnmatchedTrack cfg p.2 with
    | some t2 =>
      simp only [stepTrack, h1, h2, Option.some_inj] at h
      exact Or.inr ⟨rfl, congrArg some h⟩
    | none => simp [stepTrack, h1, h2] at h

lemma updateMatchedTrack_fst_fields (cfg : Config) (now : ℚ) (t : Track)
    (d : Detection) :
    ((updateMatchedTrack cfg now t d).1).objectType = t.objectType ∧
      ((updateMatchedTrack cfg now t d).1).trackId = t.trackId ∧
      ((updateMatchedTrack cfg now t d).1).hits = t.hits + 1 ∧
      ((updateMatchedTrack cfg now t d).1).confirmed =
        (t.confirmed || decide (cfg.minTrackHits ≤ t.hits + 1)) :=
  ⟨rfl, rfl, rfl, rfl⟩

lemma ageUnmatchedTrack_some (cfg : Config) (t t' : Track)
    (h : ageUnmatchedTrack cfg t = some t') :
    t'.objectType = t.objectType ∧ t'.trackId = t.trackId ∧
      t'.confirmed = t.confirmed ∧ t'.hits = t.hits ∧
      t'.missesSinceLastHit = t.missesSinceLastHit + 1 ∧
      t.missesSinceLastHit + 1 ≤ cfg.maxTrackAge := by
  unfold ageUnmatchedTrack at h
  split at h
  · cases h
  · rename_i hle
    simp only [Option.some_inj] at h
    subst h
    refine ⟨rfl, rfl, rfl, rfl, rfl, by omega⟩

lemma processFrame_filterInvariant (cfg : Config) (now : ℚ) (st : TMState)
    (dets : List Detection) :
    processFrame cfg now st dets = processFrame cfg now st (validDets dets) := by
  have hidem : validDets (validDets dets) = validDets dets := by
    simp [validDets, List.filter_filter]
  simp only [processFrame, framePairs, unmatchedDetections, hidem]

/-- C8: malformed detections (non-finite coordinates, `x1 ≥ x2`, or
confidence outside `[0,1]`) are dropped before matching: a frame behaves
exactly like its well-formed sub-frame, an all-malformed frame behaves like
an empty one, and every track that is new this frame comes from a valid
detection of the frame. -/
theorem malformed_detections_dropped :
    (∀ (cfg : Config) (now : ℚ) (st : TMState) (dets : List Detection),
      processFrame cfg now st dets = processFrame cfg now st (validDets dets))
    ∧ (∀ (cfg : Config) (now : ℚ) (st : TMState) (dets : List Detection),
        (∀ d ∈ dets, d.isValid = false) →
        processFrame cfg now st dets = processFrame cfg now st [])
    ∧ (∀ (cfg : Config) (now : ℚ) (st : TMState) (dets : List Detection) (t : Track),
        t ∈ (processFrame cfg now st dets).state.tracks → st.nextId ≤ t.trackId →
        (∀ t0 ∈ st.tracks, t0.trackId < st.nextId) →
        ∃ d ∈ dets, d.isValid = true ∧ t = newTrack t.trackId now d) := by
  refine ⟨processFrame_filterInvariant, ?_, ?_⟩
  · intro cfg now st dets hall
    have hnil : validDets dets = [] := by
      rw [validDets, List.filter_eq_nil_iff]
      intro d hd
      simp [hall d hd]
    rw [processFrame_filterInvariant, hnil]
  · intro cfg now st dets t hmem hge hfresh
    rcases (mem_processFrame_tracks cfg now st dets t).1 hmem with
      ⟨p, hp, hstep⟩ | ⟨q, hq, hnew⟩
    · have hps := withIdx_mem_snd _ _ _ hp
      rcases stepTrack_some_cases _ _ _ _ _ _ hstep with ⟨di, d, _, _, ht⟩ | ⟨_, hage⟩
      · have hid : t.trackId = p.2.trackId := by rw [ht]; rfl
        have := hfresh p.2 hps
        omega
      · have hid : t.trackId = p.2.trackId := (ageUnmatchedTrack_some _ _ _ hage).2.1
        have := hfresh p.2 hps
        omega
    · have hud := unmatchedDetections_subset cfg st dets q.2 (withIdx_mem_snd _ _ _ hq)
      subst hnew
      exact ⟨q.2, hud.1, hud.2, rfl⟩

/-- Witness for C8 at a concrete input: a frame holding only a detection with
confidence 2 behaves like an empty frame. -/
theorem malformed_detections_dropped_witness :
    (∀ d ∈ [detBad], d.isValid = false) ∧
      processFrame cfgSample 0 ⟨[], 0⟩ [detBad] = processFrame cfgSample 0 ⟨[], 0⟩ [] :=
  ⟨by decide, malformed_detections_dropped.2.1 cfgSample 0 ⟨[], 0⟩ [detBad] (by decide)⟩

/-- C6: the Zone Monitor emits, every frame, one `zone_violation` signal per
(confirmed track, restricted zone containing the track's center) pair and one
`loitering_detected` signal per confirmed track past the loitering threshold,
with no temporal deduplication; with an empty Zone Store no violation signal
is produced while loitering checks still run. -/
theorem zone_monitor_characterization :
    (∀ (cfg : Config) (now : ℚ) (tracks : List Track) (zones : List Zone) (s : Signal),
      s ∈ zoneMonitor cfg now tracks zones ↔
        ((∃ t ∈ tracks, t.confirmed = true ∧ ∃ z ∈ zones, z.restricted = true ∧
            zoneContains z t.center = true ∧ mkViolationSignal now t z = s)
          ∨ (∃ t ∈ tracks, t.confirmed = true ∧
              cfg.loiteringThresholdSeconds ≤ now - t.firstSeen ∧
              mkLoiterSignal now t = s)))
    ∧ (∀ (cfg : Config) (now : ℚ) (tracks : List Track),
        zoneMonitor cfg now tracks [] = tracks.filterMap (loiterSignal cfg now)) := by
  constructor
  · intro cfg now tracks zones s
    simp only [zoneMonitor, List.mem_append, List.mem_flatMap, List.mem_filterMap]
    apply or_congr
    · constructor
      · rintro ⟨t, ht, hs⟩
        by_cases hc : t.confirmed = true
        · rw [violationSignals, if_pos hc] at hs
          simp only [List.mem_map, List.mem_filter, Bool.and_eq_true] at hs
          obtain ⟨z, ⟨hz, hr, hcont⟩, he⟩ := hs
          exact ⟨t, ht, hc, z, hz, hr, hcont, he⟩
        · rw [violationSignals, if_neg hc] at hs
          simp at hs
      · rintro ⟨t, ht, hc, z, hz, hr, hcont, he⟩
        refine ⟨t, ht, ?_⟩
        rw [violationSignals, if_pos hc]
        simp only [List.mem_map, List.mem_filter, Bool.and_eq_true]
        exact ⟨z, ⟨hz, hr, hcont⟩, he⟩
    · constructor
      · rintro ⟨t, ht, hs⟩
        rw [loiterSignal] at hs
        split_ifs at hs with hcnd
        · simp only [Bool.and_eq_true, decide_eq_true_eq] at hcnd
          exact ⟨t, ht, hcnd.1, hcnd.2, Option.some_inj.1 hs⟩
      · rintro ⟨t, ht, hc, hle, he⟩
        refine ⟨t, ht, ?_⟩
        rw [loiterSignal, if_pos]
        · exact congrArg some he
        · simp [hc, hle]
  · intro cfg now tracks
    simp [zoneMonitor, violationSignals]

/-- C2: matching is greedy by globally smallest Euclidean distance
(compared via squares) among same-type pairs within the threshold: a track
with two same-type detections at distances `d1 ≤ threshold < d2` matches the
near one and not the far one, and an exact distance tie between two tracks
resolves to the lowest track id regardless of list order. -/
theorem greedy_match_nearest_first :
    (∀ (cfg : Config) (t : Track) (a b : Detection),
      t.objectType = a.objectType → t.objectType = b.objectType →
      dist2 t.center a.center ≤ cfg.trackDistanceThreshold * cfg.trackDistanceThreshold →
      cfg.trackDistanceThreshold * cfg.trackDistanceThreshold < dist2 t.center b.center →
      greedyMatch cfg [t] [a, b] = [(0, 0)])
    ∧ (∀ (cfg : Config) (tLo tHi : Track) (d : Detection),
        tLo.objectType = d.objectType → tHi.objectType = d.objectType →
        tLo.trackId < tHi.trackId →
        dist2 tLo.center d.center = dist2 tHi.center d.center →
        dist2 tLo.center d.center ≤ cfg.trackDistanceThreshold * cfg.trackDistanceThreshold →
        greedyMatch cfg [tHi, tLo] [d] = [(1, 0)]) := by
  constructor
  · intro cfg t a b h1 h2 h3 h4
    have hca : candidateFor cfg t a = true := by
      simp [candidateFor, h1, h3]
    have hnb : ¬ dist2 t.center b.center ≤ cfg.trackDistanceThreshold * cfg.trackDistanceThreshold :=
      not_le.2 h4
    have hcb : candidateFor cfg t b = false := by
      simp [candidateFor, h2, hnb]
    have hcp : candPairs cfg [t] [a, b] =
        [⟨dist2 t.center a.center, t.trackId, 0, 0⟩] := by
      simp [candPairs, withIdx, hca, hcb]
    rw [greedyMatch, hcp]
    simp [greedyLoop, minCand]
  · intro cfg tLo tHi d h1 h2 h3 h4 h5
    have h5' : dist2 tHi.center d.center ≤ cfg.trackDistanceThreshold * cfg.trackDistanceThreshold :=
      h4 ▸ h5
    have hc1 : candidateFor cfg tHi d = true := by
      simp [candidateFor, h2, h5']
    have hc2 : candidateFor cfg tLo d = true := by
      simp [candidateFor, h1, h5]
    have hcp : candPairs cfg [tHi, tLo] [d] =
        [⟨dist2 tHi.center d.center, tHi.trackId, 0, 0⟩,
          ⟨dist2 tLo.center d.center, tLo.trackId, 1, 0⟩] := by
      simp [candPairs, withIdx, hc1, hc2]
    rw [greedyMatch, hcp]
    simp [greedyLoop, minCand, candLt, h4, h3]

/-- Witness for C2 at concrete inputs: a person track matches the detection
at distance 0, not the one ~1414px away, and a distance-5 tie between track
ids 7 and 5 goes to id 5 (listed second). -/
theorem greedy_match_nearest_first_witness :
    (trackSample.objectType = detNear.objectType ∧
      trackSample.objectType = detFar.objectType ∧
      dist2 trackSample.center detNear.center ≤ cfgSample.trackDistanceThreshold * cfgSample.trackDistanceThreshold ∧
      cfgSample.trackDistanceThreshold * cfgSample.trackDistanceThreshold < dist2 trackSample.center detFar.center ∧
      greedyMatch cfgSample [trackSample] [detNear, detFar] = [(0, 0)])
    ∧ (trackA.trackId < trackB.trackId ∧
        dist2 trackA.center detNear.center = dist2 trackB.center detNear.center ∧
        greedyMatch cfgSample [trackB, trackA] [detNear] = [(1, 0)]) :=
  ⟨⟨by decide, by decide,
      by norm_num [dist2, Detection.center, trackSample, newTrack, detSample, detNear, cfgSample],
      by norm_num [dist2, Detection.center, trackSample, newTrack, detSample, detFar, cfgSample],
      greedy_match_nearest_first.1 cfgSample trackSample detNear detFar
        (by decide) (by decide)
        (by norm_num [dist2, Detection.center, trackSample, newTrack, detSample, detNear, cfgSample])
        (by norm_num [dist2, Detection.center, trackSample, newTrack, detSample, detFar, cfgSample])⟩,
    ⟨by decide,
      by norm_num [dist2, Detection.center, trackA, trackB, trackSample, newTrack, detSample, detNear],
      greedy_match_nearest_first.2 cfgSample trackA trackB detNear
        (by decide) (by decide) (by decide)
        (by norm_num [dist2, Detection.center, trackA, trackB, trackSample, newTrack, detSample, detNear])
        (by norm_num [dist2, Detection.center, trackA, trackSample, newTrack, detSample, detNear, cfgSample])⟩⟩

lemma mkEvent_key (s : Signal) (now : ℚ) : (mkEvent s now).key = s.key :=
  rfl

lemma lookupKey_setKey_self (cds : List ((EventKind × ℕ × Option String) × ℚ))
    (k : EventKind × ℕ × Option String) (v : ℚ) :
    lookupKey (setKey cds k v) k = some v := by
  simp [lookupKey, setKey, List.find?]

lemma lookupKey_setKey_ne (cds : List ((EventKind × ℕ × Option String) × ℚ))
    (k k2 : EventKind × ℕ × Option String) (v : ℚ) (h : k2 ≠ k) :
    lookupKey (setKey cds k v) k2 = lookupKey cds k2 := by
  have hne : ¬ k = k2 := fun he => h he.symm
  simp [lookupKey, setKey, List.find?, hne]

lemma recordSignal_some_iff (cfg : Config) (now : ℚ) (st : RecorderState)
    (s : Signal) :
    (recordSignal cfg now st s).2 ≠ none ↔
      (lookupKey st.cooldowns s.key = none ∨
        ∃ last, lookupKey st.cooldowns s.key = some last ∧
          cfg.alertCooldownSeconds < now - last) := by
  cases hl : lookupKey st.cooldowns s.key with
  | none =>
    have hck : cooldownOk cfg now st.cooldowns s.key = true := by
      simp [cooldownOk, hl]
    simp [recordSignal, hck]
  | some last =>
    have hck : cooldownOk cfg now st.cooldowns s.key =
        decide (cfg.alertCooldownSeconds < now - last) := by
      simp [cooldownOk, hl]
    by_cases hlt : cfg.alertCooldownSeconds < now - last
    · simp [recordSignal, hck, hlt]
    · simp [recordSignal, hck, hlt]

lemma recordSignal_some_eq (cfg : Config) (now : ℚ) (st : RecorderState)
    (s : Signal) (e : Event) (h : (recordSignal cfg now st s).2 = some e) :
    e = mkEvent s now ∧
      lookupKey ((recordSignal cfg now st s).1).cooldowns s.key = some now := by
  by_cases hck : cooldownOk cfg now st.cooldowns s.key = true
  · have he : e = mkEvent s now := by
      simp [recordSignal, hck] at h
      exact h.symm
    refine ⟨he, ?_⟩
    have h1 : ((recordSignal cfg now st s).1).cooldowns =
        setKey st.cooldowns s.key now := by
      simp [recordSignal, hck]
    rw [h1]
    exact lookupKey_setKey_self _ _ _
  · simp [recordSignal, hck] at h

lemma recordSignal_none_eq (cfg : Config) (now : ℚ) (st : RecorderState)
    (s : Signal) (h : (recordSignal cfg now st s).2 = none) :
    (recordSignal cfg now st s).1 = st := by
  by_cases hck : cooldownOk cfg now st.cooldowns s.key = true
  · simp [recordSignal, hck] at h
  · simp [recordSignal, hck]

lemma runRecorderT_key_facts (cfg : Config)
    (hcd : 0 ≤ cfg.alertCooldownSeconds) :
    ∀ (l : List (ℚ × Signal)) (st : RecorderState)
      (k : EventKind × ℕ × Option String),
      (∀ e ∈ ((runRecorderT cfg st l).2).filter (fun e => decide (e.key = k)),
        ∀ last, lookupKey st.cooldowns k = some last →
          cfg.alertCooldownSeconds < e.recordedAt - last)
      ∧ List.Chain' (eventSep cfg.alertCooldownSeconds)
          (((runRecorderT cfg st l).2).filter (fun e => decide (e.key = k))) := by
  intro l
  induction l with
  | nil =>
    intro st k
    constructor
    · intro e he
      simp [runRecorderT] at he
    · simp [runRecorderT]
  | cons x rest ih =>
    intro st k
    obtain ⟨t, s⟩ := x
    by_cases hck : cooldownOk cfg t st.cooldowns s.key = true
    · have hr2 : (recordSignal cfg t st s).2 = some (mkEvent s t) := by
        simp [recordSignal, hck]
      have hr1 : (recordSignal cfg t st s).1.cooldowns =
          setKey st.cooldowns s.key t := by
        simp [recordSignal, hck]
      have hout : (runRecorderT cfg st ((t, s) :: rest)).2 =
          mkEvent s t :: (runRecorderT cfg (recordSignal cfg t st s).1 rest).2 := by
        simp [runRecorderT, hr2]
      have IH := ih (recordSignal cfg t st s).1 k
      by_cases hkk : s.key = k
      · have hlk : lookupKey ((recordSignal cfg t st s).1).cooldowns k = some t := by
          rw [hr1, ← hkk]
          exact lookupKey_setKey_self _ _ _
        have hfc : List.filter (fun e => decide (e.key = k))
            (mkEvent s t :: (runRecorderT cfg (recordSignal cfg t st s).1 rest).2) =
            mkEvent s t :: List.filter (fun e => decide (e.key = k))
              ((runRecorderT cfg (recordSignal cfg t st s).1 rest).2) := by
          simp [List.filter_cons, mkEvent_key, hkk]
        rw [hout, hfc]
        have hgate : ∀ last, lookupKey st.cooldowns k = some last →
            cfg.alertCooldownSeconds < t - last := by
          intro last hlast
          rw [hkk] at hck
          rw [cooldownOk, hlast] at hck
          exact of_decide_eq_true hck
        constructor
        · intro e he last hlast
          rcases List.mem_cons.1 he with he1 | he2
          · subst he1
            exact hgate last hlast
          · have h1 := IH.1 e he2 t hlk
            have h2 := hgate last hlast
            have : e.recordedAt - last =
                (e.recordedAt - t) + (t - last) := by ring
            rw [this]
            linarith
        · rw [List.chain'_cons']
          constructor
          · intro y hy
            exact IH.1 y (List.mem_of_mem_head? hy) t hlk
          · exact IH.2
      · have hfc : List.filter (fun e => decide (e.key = k))
            (mkEvent s t :: (runRecorderT cfg (recordSignal cfg t st s).1 rest).2) =
            List.filter (fun e => decide (e.key = k))
              ((runRecorderT cfg (recordSignal cfg t st s).1 rest).2) := by
          simp [List.filter_cons, mkEvent_key, hkk]
        rw [hout, hfc]
        have hlk : lookupKey ((recordSignal cfg t st s).1).cooldowns k =
            lookupKey st.cooldowns k := by
          rw [hr1]
          exact lookupKey_setKey_ne _ _ _ _ (fun he => hkk he.symm)
        constructor
        · intro e he last hlast
          exact IH.1 e he last (by rw [hlk]; exact hlast)
        · exact IH.2
    · have hr : recordSignal cfg t st s = (st, none) := by
        simp [recordSignal, hck]
      have hout : (runRecorderT cfg st ((t, s) :: rest)).2 =
          (runRecorderT cfg st rest).2 := by
        simp [runRecorderT, hr]
      rw [hout]
      exact ih st k

/-- C4: the cooldown discipline — a signal becomes an Event iff its key
(`(kind, track_id)`, plus the zone name for zone violations) has no cooldown
entry or an entry older than `alert_cooldown_seconds`; recording stamps the
key with `now`; suppression leaves the recorder unchanged; and over any
timed signal sequence the recorded events of one key are pairwise separated
by more than the cooldown, so each window holds at most one. -/
theorem cooldown_discipline :
    (∀ (cfg : Config) (now : ℚ) (st : RecorderState) (s : Signal),
      (recordSignal cfg now st s).2 ≠ none ↔
        (lookupKey st.cooldowns s.key = none ∨
          ∃ last, lookupKey st.cooldowns s.key = some last ∧
            cfg.alertCooldownSeconds < now - last))
    ∧ (∀ (cfg : Config) (now : ℚ) (st : RecorderState) (s : Signal) (e : Event),
        (recordSignal cfg now st s).2 = some e →
        e = mkEvent s now ∧
          lookupKey ((recordSignal cfg now st s).1).cooldowns s.key = some now)
    ∧ (∀ (cfg : Config) (now : ℚ) (st : RecorderState) (s : Signal),
        (recordSignal cfg now st s).2 = none → (recordSignal cfg now st s).1 = st)
    ∧ (∀ s : Signal, s.kind ≠ EventKind.zoneViolation →
        s.key = (s.kind, s.trackId, none))
    ∧ (∀ s : Signal, s.kind = EventKind.zoneViolation →
        s.key = (s.kind, s.trackId, s.zoneName))
    ∧ (∀ (cfg : Config), 0 ≤ cfg.alertCooldownSeconds →
        ∀ (l : List (ℚ × Signal)) (k : EventKind × ℕ × Option String),
          List.Pairwise (eventSep cfg.alertCooldownSeconds)
            (((runRecorderT cfg initialRecorder l).2).filter
              (fun e => decide (e.key = k)))) := by
  refine ⟨recordSignal_some_iff, recordSignal_some_eq, recordSignal_none_eq,
    ?_, ?_, ?_⟩
  · intro s h
    simp [Signal.key, dedupKey, h]
  · intro s h
    simp [Signal.key, dedupKey, h]
  · intro cfg hcd l k
    haveI : IsTrans Event (eventSep cfg.alertCooldownSeconds) :=
      ⟨fun a b c hab hbc => by
        unfold eventSep at *
        linarith⟩
    rw [← List.chain'_iff_pairwise]
    exact (runRecorderT_key_facts cfg hcd l initialRecorder k).2

/-- Witness for C4 at a concrete input: with the default 30s cooldown, the
events of one key recorded from two signals 10s apart are pairwise separated
by more than the cooldown. -/
theorem cooldown_discipline_witness :
    (0 : ℚ) ≤ cfgSample.alertCooldownSeconds ∧
      List.Pairwise (eventSep cfgSample.alertCooldownSeconds)
        (((runRecorderT cfgSample initialRecorder
            [(0, sigSample), (10, sigSample)]).2).filter
          (fun e => decide (e.key = sigSample.key))) :=
  ⟨by decide,
    cooldown_discipline.2.2.2.2.2 cfgSample (by decide)
      [(0, sigSample), (10, sigSample)] sigSample.key⟩

lemma foldl_min_mem :
    ∀ (cs : List Cand) (acc : Cand),
      cs.foldl (fun m x => if candLt x m then x else m) acc ∈ acc :: cs := by
  intro cs
  induction cs with
  | nil => intro acc; simp
  | cons a as ih =>
    intro acc
    rw [List.foldl_cons]
    rcases List.mem_cons.1 (ih (if candLt a acc then a else acc)) with h2 | h2
    · rw [h2]
      by_cases hc : candLt a acc = true
      · simp [hc]
      · simp [hc]
    · exact List.mem_cons_of_mem _ (List.mem_cons_of_mem _ h2)

lemma minCand_mem (c : Cand) (cs : List Cand) : minCand c cs ∈ c :: cs :=
  foldl_min_mem cs c

lemma greedyLoop_mem :
    ∀ (n : ℕ) (cs : List Cand) (q : ℕ × ℕ),
      q ∈ greedyLoop n cs → ∃ c ∈ cs, q = (c.ti, c.di) := by
  intro n
  induction n with
  | zero => intro cs q h; simp [greedyLoop] at h
  | succ n ih =>
    intro cs q h
    cases cs with
    | nil => simp [greedyLoop] at h
    | cons c cs2 =>
      simp only [greedyLoop] at h
      rcases List.mem_cons.1 h with h1 | h2
      · exact ⟨minCand c cs2, minCand_mem c cs2, h1⟩
      · obtain ⟨c2, hc2, hq⟩ := ih _ q h2
        exact ⟨c2, List.mem_of_mem_filter hc2, hq⟩

lemma candPairs_mem (cfg : Config) (tracks : List Track) (dets : List Detection) :
    ∀ c ∈ candPairs cfg tracks dets,
      ∃ t d, tracks[c.ti]? = some t ∧ dets[c.di]? = some d ∧
        t.objectType = d.objectType ∧
        dist2 t.center d.center ≤
          cfg.trackDistanceThreshold * cfg.trackDistanceThreshold ∧
        c.tid = t.trackId ∧ c.d2 = dist2 t.center d.center := by
  intro c hc
  simp only [candPairs, List.mem_flatMap, List.mem_filterMap] at hc
  obtain ⟨pt, hpt, pd, hpd, hif⟩ := hc
  by_cases hcf : candidateFor cfg pt.2 pd.2 = true
  · rw [if_pos hcf] at hif
    obtain hc2 := Option.some_inj.1 hif
    subst hc2
    obtain ⟨hteq, htle⟩ :=
      (by simpa [candidateFor] using hcf :
        pt.2.objectType = pd.2.objectType ∧
          dist2 pt.2.center pd.2.center ≤
            cfg.trackDistanceThreshold * cfg.trackDistanceThreshold)
    have hg1 := (withIdx_get tracks 0 pt hpt).2
    have hg2 := (withIdx_get dets 0 pd hpd).2
    rw [Nat.sub_zero] at hg1 hg2
    exact ⟨pt.2, pd.2, hg1, hg2, hteq, htle, rfl, rfl⟩
  · rw [if_neg hcf] at hif
    cases hif

lemma greedyMatch_mem (cfg : Config) (tracks : List Track)
    (dets : List Detection) :
    ∀ q ∈ greedyMatch cfg tracks dets,
      ∃ t d, tracks[q.1]? = some t ∧ dets[q.2]? = some d ∧
        t.objectType = d.objectType ∧
        dist2 t.center d.center ≤
          cfg.trackDistanceThreshold * cfg.trackDistanceThreshold := by
  intro q hq
  obtain ⟨c, hc, hqc⟩ := greedyLoop_mem _ _ q hq
  obtain ⟨t, d, h1, h2, h3, h4, _, _⟩ := candPairs_mem cfg tracks dets c hc
  subst hqc
  exact ⟨t, d, h1, h2, h3, h4⟩

lemma lookupIdx_mem (m : List (ℕ × ℕ)) (ti di : ℕ)
    (h : lookupIdx m ti = some di) : (ti, di) ∈ m := by
  unfold lookupIdx at h
  cases hf : m.find? (fun p => decide (p.1 = ti)) with
  | none => rw [hf] at h; cases h
  | some q =>
    rw [hf] at h
    simp only [Option.map_some', Option.some_inj] at h
    have hm := List.mem_of_find?_eq_some hf
    have hp := List.find?_some hf
    simp only [decide_eq_true_eq] at hp
    have hq : q = (ti, di) := by
      obtain ⟨q1, q2⟩ := q
      simp only at hp h
      rw [hp, h]
    rw [← hq]
    exact hm

lemma updateMatchedTrack_trackOK (cfg : Config) (now : ℚ) (t : Track)
    (d : Detection) (h : trackOK cfg t) :
    trackOK cfg (updateMatchedTrack cfg now t d).1 := by
  unfold trackOK at *
  show (t.confirmed || decide (cfg.minTrackHits ≤ t.hits + 1)) = true ↔
    cfg.minTrackHits ≤ t.hits + 1
  simp only [Bool.or_eq_true, decide_eq_true_eq]
  constructor
  · rintro (hc | hle2)
    · have := h.1 hc; omega
    · exact hle2
  · intro hle; exact Or.inr hle

lemma newTrack_trackOK (cfg : Config) (h2 : 2 ≤ cfg.minTrackHits) (i : ℕ)
    (now : ℚ) (d : Detection) : trackOK cfg (newTrack i now d) := by
  unfold trackOK newTrack
  simp only [Bool.false_eq_true, false_iff, not_le]
  omega

lemma stepTrack_trackOK (cfg : Config) (now : ℚ) (dets : List Detection)
    (pairing : List (ℕ × ℕ)) (p : ℕ × Track) (t : Track)
    (hok : trackOK cfg p.2)
    (h : (stepTrack cfg now dets pairing p).1 = some t) : trackOK cfg t := by
  rcases stepTrack_some_cases _ _ _ _ _ _ h with ⟨di, d, _, _, ht⟩ | ⟨_, hage⟩
  · rw [ht]
    exact updateMatchedTrack_trackOK _ _ _ _ hok
  · obtain ⟨_, _, hc, hh, _, _⟩ := ageUnmatchedTrack_some _ _ _ hage
    unfold trackOK at *
    rw [hc, hh]
    exact hok

lemma updateMatchedTrack_emit_iff (cfg : Config) (now : ℚ) (t : Track)
    (d : Detection) :
    (updateMatchedTrack cfg now t d).2 = true ↔
      (t.confirmed = false ∧ cfg.minTrackHits ≤ t.hits + 1) := by
  show (!t.confirmed && decide (cfg.minTrackHits ≤ t.hits + 1)) = true ↔ _
  simp [Bool.and_eq_true, Bool.not_eq_true']

lemma updateMatchedTrack_mono (cfg : Config) (now : ℚ) (t : Track)
    (d : Detection) (h : t.confirmed = true) :
    (updateMatchedTrack cfg now t d).1.confirmed = true := by
  show (t.confirmed || decide (cfg.minTrackHits ≤ t.hits + 1)) = true
  simp [h]

lemma updateMatchedTrack_emit_flip (cfg : Config) (now : ℚ) (t : Track)
    (d : Detection) :
    (updateMatchedTrack cfg now t d).2 = true ↔
      (t.confirmed = false ∧ (updateMatchedTrack cfg now t d).1.confirmed = true) := by
  rw [updateMatchedTrack_emit_iff]
  show _ ↔ (t.confirmed = false ∧
    (t.confirmed || decide (cfg.minTrackHits ≤ t.hits + 1)) = true)
  constructor
  · rintro ⟨hc, hle⟩
    exact ⟨hc, by simp [hc, hle]⟩
  · rintro ⟨hc, hor⟩
    refine ⟨hc, ?_⟩
    simp only [hc, Bool.false_or, decide_eq_true_eq] at hor
    exact hor

lemma stepTrack_snd_cases (cfg : Config) (now : ℚ) (dets : List Detection)
    (pairing : List (ℕ × ℕ)) (p : ℕ × Track) (tr : Transition)
    (h : (stepTrack cfg now dets pairing p).2 = some tr) :
    (∃ di d, lookupIdx pairing p.1 = some di ∧ dets[di]? = some d ∧
      (updateMatchedTrack cfg now p.2 d).2 = true ∧
      tr = Transition.confirmedTrack (updateMatchedTrack cfg now p.2 d).1) ∨
    (lookupIdx pairing p.1 = none ∧ ageUnmatchedTrack cfg p.2 = none ∧
      tr = Transition.expiredTrack p.2) := by
  cases h1 : lookupIdx pairing p.1 with
  | some di =>
    cases h2 : dets[di]? with
    | some d =>
      simp only [stepTrack, h1, h2] at h
      by_cases hem : (updateMatchedTrack cfg now p.2 d).2 = true
      · rw [if_pos hem] at h
        exact Or.inl ⟨di, d, rfl, h2, hem, (Option.some_inj.1 h).symm⟩
      · rw [if_neg hem] at h
        cases h
    | none => simp [stepTrack, h1, h2] at h
  | none =>
    cases h2 : ageUnmatchedTrack cfg p.2 with
    | some t2 => simp [stepTrack, h1, h2] at h
    | none =>
      simp only [stepTrack, h1, h2, Option.some_inj] at h
      exact Or.inr ⟨rfl, rfl, h.symm⟩

lemma stepTrack_emits (cfg : Config) (now : ℚ) (dets : List Detection)
    (pairing : List (ℕ × ℕ)) (p : ℕ × Track) (di : ℕ) (d : Detection)
    (h1 : lookupIdx pairing p.1 = some di) (h2 : dets[di]? = some d)
    (hem : (updateMatchedTrack cfg now p.2 d).2 = true) :
    (stepTrack cfg now dets pairing p).2 =
      some (Transition.confirmedTrack (updateMatchedTrack cfg now p.2 d).1) := by
  simp only [stepTrack, h1, h2]
  rw [if_pos hem]

/-- C1: with `min_track_hits ≥ 2`, one frame update preserves the invariant
"confirmed iff `hits ≥ min_track_hits`"; the `object_detected` transition
flag of a matched track is raised exactly at the unconfirmed-to-confirmed
flip, which happens exactly when `hits` first reaches `min_track_hits`;
confirmation is monotone (never revoked by a match, an age step, and a new
track starts unconfirmed), so the flip happens at most once per lifetime;
and the frame's transitions are exactly the per-track emissions. -/
theorem track_confirmation_discipline :
    ∀ (cfg : Config) (now : ℚ),
      (∀ (st : TMState) (dets : List Detection), 2 ≤ cfg.minTrackHits →
        (∀ t ∈ st.tracks, trackOK cfg t) →
        ∀ t ∈ (processFrame cfg now st dets).state.tracks, trackOK cfg t)
      ∧ (∀ (t : Track) (d : Detection),
          (updateMatchedTrack cfg now t d).2 = true ↔
            (t.confirmed = false ∧ (updateMatchedTrack cfg now t d).1.confirmed = true))
      ∧ (∀ (t : Track) (d : Detection),
          (updateMatchedTrack cfg now t d).2 = true ↔
            (t.confirmed = false ∧ cfg.minTrackHits ≤ t.hits + 1))
      ∧ (∀ (t : Track) (d : Detection), t.confirmed = true →
          (updateMatchedTrack cfg now t d).1.confirmed = true)
      ∧ (∀ (t t' : Track), ageUnmatchedTrack cfg t = some t' →
          t'.confirmed = t.confirmed)
      ∧ (∀ (i : ℕ) (d : Detection), (newTrack i now d).confirmed = false)
      ∧ (∀ (st : TMState) (dets : List Detection) (tr : Transition),
          tr ∈ (processFrame cfg now st dets).transitions →
          (∃ p ∈ withIdx 0 st.tracks, ∃ di d,
            lookupIdx (framePairs cfg st dets) p.1 = some di ∧
            (validDets dets)[di]? = some d ∧
            (updateMatchedTrack cfg now p.2 d).2 = true ∧
            tr = Transition.confirmedTrack (updateMatchedTrack cfg now p.2 d).1) ∨
          (∃ p ∈ withIdx 0 st.tracks,
            lookupIdx (framePairs cfg st dets) p.1 = none ∧
            ageUnmatchedTrack cfg p.2 = none ∧ tr = Transition.expiredTrack p.2))
      ∧ (∀ (st : TMState) (dets : List Detection) (p : ℕ × Track) (di : ℕ)
          (d : Detection),
          p ∈ withIdx 0 st.tracks →
          lookupIdx (framePairs cfg st dets) p.1 = some di →
          (validDets dets)[di]? = some d →
          (updateMatchedTrack cfg now p.2 d).2 = true →
          Transition.confirmedTrack (updateMatchedTrack cfg now p.2 d).1 ∈
            (processFrame cfg now st dets).transitions) := by
  intro cfg now
  refine ⟨?_, updateMatchedTrack_emit_flip cfg now,
    updateMatchedTrack_emit_iff cfg now, updateMatchedTrack_mono cfg now,
    ?_, ?_, ?_, ?_⟩
  · intro st dets hmin hst t ht
    rcases (mem_processFrame_tracks cfg now st dets t).1 ht with
      ⟨p, hp, hstep⟩ | ⟨q, hq, hnew⟩
    · exact stepTrack_trackOK cfg now _ _ p t
        (hst p.2 (withIdx_mem_snd _ _ _ hp)) hstep
    · rw [← hnew]
      exact newTrack_trackOK cfg hmin _ _ _
  · intro t t' h
    exact (ageUnmatchedTrack_some _ _ _ h).2.2.1
  · intro i d
    rfl
  · intro st dets tr htr
    obtain ⟨p, hp, hstep⟩ := (mem_processFrame_transitions cfg now st dets tr).1 htr
    rcases stepTrack_snd_cases _ _ _ _ _ _ hstep with
      ⟨di, d, hdi, hd, hem, heq⟩ | ⟨hlk, hage, heq⟩
    · exact Or.inl ⟨p, hp, di, d, hdi, hd, hem, heq⟩
    · exact Or.inr ⟨p, hp, hlk, hage, heq⟩
  · intro st dets p di d hp hdi hd hem
    exact (mem_processFrame_transitions cfg now st dets _).2
      ⟨p, hp, stepTrack_emits cfg now _ _ p di d hdi hd hem⟩

/-- Witness for C1 at a concrete input: a confirmed sample track stays
confirmed after a further match, and a fresh track starts unconfirmed. -/
theorem track_confirmation_discipline_witness :
    confirmedSample.confirmed = true ∧
      (updateMatchedTrack cfgSample 1 confirmedSample detNear).1.confirmed = true ∧
      (newTrack 0 1 detSample).confirmed = false :=
  ⟨rfl,
    (track_confirmation_discipline cfgSample 1).2.2.2.1 confirmedSample detNear rfl,
    (track_confirmation_discipline cfgSample 1).2.2.2.2.2.1 0 detSample⟩

/-- C3: an unmatched track is removed exactly when
`misses_since_last_hit + 1` exceeds `max_track_age` and emits the `expired`
transition exactly then; a matched track is never removed; and expired
transitions contribute no signal to the Event Recorder. -/
theorem track_removal_discipline :
    ∀ (cfg : Config) (now : ℚ),
      (∀ t : Track, ageUnmatchedTrack cfg t = none ↔
        cfg.maxTrackAge < t.missesSinceLastHit + 1)
      ∧ (∀ (dets2 : List Detection) (pairing : List (ℕ × ℕ)) (p : ℕ × Track),
          lookupIdx pairing p.1 = none →
          (((stepTrack cfg now dets2 pairing p).1 = none) ↔
            cfg.maxTrackAge < p.2.missesSinceLastHit + 1)
          ∧ (((stepTrack cfg now dets2 pairing p).2 =
              some (Transition.expiredTrack p.2)) ↔
            cfg.maxTrackAge < p.2.missesSinceLastHit + 1))
      ∧ (∀ (st : TMState) (dets : List Detection) (p : ℕ × Track) (di : ℕ),
          lookupIdx (framePairs cfg st dets) p.1 = some di →
          (stepTrack cfg now (validDets dets) (framePairs cfg st dets) p).1 ≠ none)
      ∧ (∀ (now2 : ℚ) (trs : List Transition) (t : Track),
          transitionSignals now2 (Transition.expiredTrack t :: trs) =
            transitionSignals now2 trs) := by
  intro cfg now
  refine ⟨?_, ?_, ?_, ?_⟩
  · intro t
    unfold ageUnmatchedTrack
    split
    · rename_i hlt
      simp [hlt]
    · rename_i hlt
      simp [hlt]
  · intro dets2 pairing p hlk
    cases hage : ageUnmatchedTrack cfg p.2 with
    | some t2 =>
      have hmiss := (ageUnmatchedTrack_some _ _ _ hage).2.2.2.2.2
      constructor
      · simp only [stepTrack, hlk, hage]
        constructor
        · intro h; cases h
        · intro h; omega
      · simp only [stepTrack, hlk, hage]
        constructor
        · intro h; cases h
        · intro h; omega
    | none =>
      have hmiss : cfg.maxTrackAge < p.2.missesSinceLastHit + 1 := by
        by_contra hc
        unfold ageUnmatchedTrack at hage
        rw [if_neg hc] at hage
        cases hage
      constructor
      · simp only [stepTrack, hlk, hage]
        simp [hmiss]
      · simp only [stepTrack, hlk, hage]
        simp [hmiss]
  · intro st dets p di hlk
    have hmem := lookupIdx_mem _ _ _ hlk
    rw [framePairs] at hmem
    obtain ⟨t, d, _, hd, _, _⟩ :=
      greedyMatch_mem cfg st.tracks (validDets dets) (p.1, di) hmem
    simp only [stepTrack, hlk, hd]
    simp
  · intro now2 trs t
    simp [transitionSignals]

/-- Witness for C3 at a concrete input: an unmatched fresh track
(0 misses) survives with the default `max_track_age = 30`. -/
theorem track_removal_discipline_witness :
    lookupIdx [] (0, trackSample).1 = none ∧
      (((stepTrack cfgSample 0 [] [] (0, trackSample)).1 = none) ↔
        cfgSample.maxTrackAge < trackSample.missesSinceLastHit + 1) ∧
      (((stepTrack cfgSample 0 [] [] (0, trackSample)).2 =
          some (Transition.expiredTrack trackSample)) ↔
        cfgSample.maxTrackAge < trackSample.missesSinceLastHit + 1) :=
  ⟨rfl,
    ((track_removal_discipline cfgSample 0).2.1 [] [] (0, trackSample) rfl).1,
    ((track_removal_discipline cfgSample 0).2.1 [] [] (0, trackSample) rfl).2⟩

/-- C9: a track's object type equals the creating detection's type and is
preserved by every match update and every age step, and matching only ever
pairs a track with a detection of equal object type, so the type never
changes over a track's lifetime. -/
theorem track_object_type_immutable :
    ∀ (cfg : Config) (now : ℚ),
      (∀ (t : Track) (d : Detection),
        ((updateMatchedTrack cfg now t d).1).objectType = t.objectType)
      ∧ (∀ (t t' : Track), ageUnmatchedTrack cfg t = some t' →
          t'.objectType = t.objectType)
      ∧ (∀ (i : ℕ) (d : Detection), (newTrack i now d).objectType = d.objectType)
      ∧ (∀ (tracks : List Track) (dets : List Detection) (q : ℕ × ℕ),
          q ∈ greedyMatch cfg tracks dets →
          ∃ t d, tracks[q.1]? = some t ∧ dets[q.2]? = some d ∧
            t.objectType = d.objectType)
      ∧ (∀ (st : TMState) (dets : List Detection) (t : Track),
          t ∈ (processFrame cfg now st dets).state.tracks →
          (∃ t0 ∈ st.tracks, t.trackId = t0.trackId ∧
            t.objectType = t0.objectType) ∨
          (∃ d ∈ dets, d.isValid = true ∧ t.objectType = d.objectType ∧
            st.nextId ≤ t.trackId)) := by
  intro cfg now
  refine ⟨fun t d => rfl, ?_, fun i d => rfl, ?_, ?_⟩
  · intro t t' h
    exact (ageUnmatchedTrack_some _ _ _ h).1
  · intro tracks dets q hq
    obtain ⟨t, d, h1, h2, h3, _⟩ := greedyMatch_mem cfg tracks dets q hq
    exact ⟨t, d, h1, h2, h3⟩
  · intro st dets t ht
    rcases (mem_processFrame_tracks cfg now st dets t).1 ht with
      ⟨p, hp, hstep⟩ | ⟨q, hq, hnew⟩
    · have hps := withIdx_mem_snd _ _ _ hp
      rcases stepTrack_some_cases _ _ _ _ _ _ hstep with
        ⟨di, d, _, _, hteq⟩ | ⟨_, hage⟩
      · refine Or.inl ⟨p.2, hps, ?_, ?_⟩
        · rw [hteq]; rfl
        · rw [hteq]; rfl
      · obtain ⟨hty, hid, _, _, _, _⟩ := ageUnmatchedTrack_some _ _ _ hage
        exact Or.inl ⟨p.2, hps, hid, hty⟩
    · have hud := unmatchedDetections_subset cfg st dets q.2
        (withIdx_mem_snd _ _ _ hq)
      refine Or.inr ⟨q.2, hud.1, hud.2, ?_, ?_⟩
      · rw [← hnew]; rfl
      · rw [← hnew]
        show st.nextId ≤ st.nextId + q.1
        omega

/-- Witness for C9 at a concrete input: aging `trackSample` by one missed
frame keeps its object type. -/
theorem track_object_type_immutable_witness :
    ageUnmatchedTrack cfgSample trackSample = some agedSample ∧
      agedSample.objectType = trackSample.objectType :=
  ⟨rfl, (track_object_type_immutable cfgSample 0).2.1 trackSample agedSample rfl⟩

lemma applyNotifOp_unread_nonneg (st : NotifState) (op : NotifOp)
    (h : 0 ≤ st.unreadCount) : 0 ≤ (applyNotifOp st op).unreadCount := by
  cases op with
  | markRead nid =>
    simpa [applyNotifOp, markAsRead] using le_max_left 0 (st.unreadCount - 1)
  | markAll => simp [applyNotifOp, markAllAsRead]
  | del nid =>
    simp only [applyNotifOp, deleteNotification]
    rcases hf : st.notifications.find? (fun n => decide (n.id = nid)) with _ | n
    · simpa [hf] using h
    · simp only [hf]
      split
      · exact h
      · exact le_max_left 0 _
  | add n =>
    simp only [applyNotifOp, addNotification]
    split
    · exact h
    · omega
  | clearAll => simp [applyNotifOp, clearAllNotifications]

lemma foldl_notifOps_nonneg (ops : List NotifOp) :
    ∀ st : NotifState, 0 ≤ st.unreadCount →
      0 ≤ (ops.foldl applyNotifOp st).unreadCount := by
  induction ops with
  | nil => intro st h; simpa using h
  | cons op rest ih =>
    intro st h
    exact ih _ (applyNotifOp_unread_nonneg st op h)

/-- C10: in the mobile NotificationProvider, starting from the initial state
(empty list, `unreadCount = 0`), every sequence of the exposed operations
(markAsRead, markAllAsRead, deleteNotification, addNotification,
clearAllNotifications) keeps `unreadCount ≥ 0`: the decrements are clamped
with `Math.max(0, prev - 1)` and the other operations only set the counter to
0, a filter count, or increment it. -/
theorem notif_unread_count_nonneg (ops : List NotifOp) :
    0 ≤ (runNotifOps ops).unreadCount :=
  foldl_notifOps_nonneg ops initNotifState (by simp [initNotifState])

end HomeVision
